import Mathlib

/-!
Verification of the Virtual-Launch-Master monitoring core.

Shallow embedding of the TypeScript sources:
  * `src/src/utils/lru-cache.ts`        → `VLM.LRUCache`
  * `src/src/monitors/whale-trades.ts`  → `VLM.WhaleTrades`, `VLM.handleSwap`, `VLM.handleTransfer`
  * `src/unnamed/part_005` (TaxTracker) → `VLM.TaxState`, `VLM.TaxTracker.update`
  * `src/src/monitors/buyback-tracker.ts` → `VLM.BuybackTracker`, `VLM.getStatus`, …
  * `src/unnamed/part_002` (VirtualsApi) → `VLM.getUpcomingLaunches`
  * `src/src/providers/api-server.ts`   → `VLM.recordTrade`
  * `src/src/state-machine.ts`          → `VLM.buybackPhaseStep`

Modelling conventions: TypeScript `bigint` values are `Nat` (ERC-20 amounts,
always non-negative) or `Int` (signed deltas) — `bigint` is arbitrary
precision, so no wrap-around modelling is needed.  Addresses and transaction
hashes are abstracted to `Nat` identifiers (the sources only compare them for
equality after lower-casing).  Wall-clock times (`Date.now()`, milliseconds)
are `Nat`, threaded explicitly where the sources read the ambient clock.
JavaScript floating-point arithmetic (`Number`) is idealised as exact `ℚ`
arithmetic; the IEEE-754 `Infinity` produced for a zero buyback rate is
modelled as `Option ℚ` with `none` standing for `∞`.
-/

namespace VLM


/-! ### LRU cache (src/src/utils/lru-cache.ts)

The cache is a JavaScript `Map`, which iterates in insertion order; it is
modelled as an association list, oldest entry first. -/

/-- State of `LRUCache<K, V>`: the capacity `maxSize` and the backing `Map`
as an insertion-ordered association list (oldest first). -/
structure LRUCache (K V : Type) where
  maxSize : Nat
  cache : List (K × V)
deriving DecidableEq

/-- The keys currently stored, oldest first. -/
def LRUCache.keys {K V : Type} (c : LRUCache K V) : List K :=
  c.cache.map Prod.fst

/-- `LRUCache.has` from the source: key membership in the backing `Map`. -/
def LRUCache.hasKey {K V : Type} [DecidableEq K] (c : LRUCache K V) (k : K) : Bool :=
  c.cache.any (fun p => p.1 = k)

/-- `LRUCache.set` from the source: if the key is present, delete it first;
otherwise, if at capacity, delete the oldest entry; then append the new
binding (a fresh `Map.set` appends in iteration order). -/
def LRUCache.set {K V : Type} [DecidableEq K] (c : LRUCache K V) (k : K) (v : V) :
    LRUCache K V :=
  let base :=
    if c.hasKey k then c.cache.filter (fun p => ¬ p.1 = k)
    else if c.maxSize ≤ c.cache.length then c.cache.tail
    else c.cache
  { c with cache := base ++ [(k, v)] }

/-! ### Whale-trade detector (src/src/monitors/whale-trades.ts) -/

/-- Trade direction, `'BUY' | 'SELL'` in src/src/types. -/
inductive Direction where
  | BUY
  | SELL
deriving DecidableEq

/-- `WhaleTradeInfo` from src/src/types: one emitted whale trade. -/
structure WhaleTradeInfo where
  direction : Direction
  amountVirtual : Int
  amountToken : Int
  trader : Nat
  txHash : Nat
  blockNumber : Nat
  timestamp : Nat
deriving DecidableEq

/-- Mutable state of the `WhaleTrades` monitor that the two event handlers
read: the configured threshold (base-token integer units), the AMM-v2
orientation flag, the pool address and the dedup cache. -/
structure WhaleTrades where
  threshold : Int
  virtualIsToken0 : Bool
  poolAddress : Nat
  lruCache : LRUCache Nat Bool
deriving DecidableEq

/-- `handleSwap` from whale-trades.ts (AMM-v2 mode): dedup by hash, compute
the base-token and project-token deltas, threshold on the absolute base
delta, then emit with `direction := deltaVirtual > 0 ? 'SELL' : 'BUY'`.
Returns the updated monitor state and the emitted trade, if any. -/
def handleSwap (m : WhaleTrades) (sender : Nat)
    (amount0In amount1In amount0Out amount1Out : Int)
    (txHash blockNumber now : Nat) : WhaleTrades × Option WhaleTradeInfo :=
  if m.lruCache.hasKey txHash then (m, none)
  else
    let deltaVirtual : Int :=
      if m.virtualIsToken0 then amount0In - amount0Out else amount1In - amount1Out
    let deltaToken : Int :=
      if m.virtualIsToken0 then amount1Out - amount1In else amount0Out - amount0In
    let absVirtual : Int := if deltaVirtual < 0 then -deltaVirtual else deltaVirtual
    if absVirtual < m.threshold then (m, none)
    else
      ({ m with lruCache := m.lruCache.set txHash true },
        some
          { direction := if 0 < deltaVirtual then Direction.SELL else Direction.BUY
            amountVirtual := absVirtual
            amountToken := if deltaToken < 0 then -deltaToken else deltaToken
            trader := sender
            txHash := txHash
            blockNumber := blockNumber
            timestamp := now })

/-- `handleTransfer` from whale-trades.ts (curve mode): keep only transfers
touching the pool address, dedup by hash, threshold on the value, then emit
with `isBuy := from == pool`, project-token amount zero. -/
def handleTransfer (m : WhaleTrades) (fromAddr toAddr : Nat) (value : Int)
    (txHash blockNumber now : Nat) : WhaleTrades × Option WhaleTradeInfo :=
  if ¬ fromAddr = m.poolAddress ∧ ¬ toAddr = m.poolAddress then (m, none)
  else if m.lruCache.hasKey txHash then (m, none)
  else if value < m.threshold then (m, none)
  else
    let isBuy : Bool := fromAddr = m.poolAddress
    ({ m with lruCache := m.lruCache.set txHash true },
      some
        { direction := if isBuy then Direction.BUY else Direction.SELL
          amountVirtual := value
          amountToken := 0
          trader := if isBuy then toAddr else fromAddr
          txHash := txHash
          blockNumber := blockNumber
          timestamp := now })

/-! ### Streams of swap events through the whale monitor -/

/-- Arguments of one `Swap` emission delivered to `handleSwap`. -/
structure SwapEvent where
  sender : Nat
  amount0In : Int
  amount1In : Int
  amount0Out : Int
  amount1Out : Int
  txHash : Nat
  blockNumber : Nat
  now : Nat
deriving DecidableEq

/-- Deliver one swap event to the monitor, appending any emitted trade to the
list of trades sent through the `onWhaleTrade` callback so far. -/
def swapStep (acc : WhaleTrades × List WhaleTradeInfo) (e : SwapEvent) :
    WhaleTrades × List WhaleTradeInfo :=
  let r := handleSwap acc.1 e.sender e.amount0In e.amount1In e.amount0Out e.amount1Out
    e.txHash e.blockNumber e.now
  (r.1, acc.2 ++ r.2.toList)

/-- Deliver a whole event stream to a monitor, collecting emitted trades in
order. -/
def runSwaps (m : WhaleTrades) (es : List SwapEvent) : WhaleTrades × List WhaleTradeInfo :=
  es.foldl swapStep (m, [])

/-- Invariant tying the dedup cache to the trades emitted so far: capacity is
1000, the cached keys are distinct and drawn from the hash universe `S`, every
hash has been emitted at most once, and every emitted hash is still cached. -/
def DedupInv (S : Finset Nat) (st : WhaleTrades × List WhaleTradeInfo) : Prop :=
  st.1.lruCache.maxSize = 1000 ∧
    st.1.lruCache.keys.Nodup ∧
    (∀ k ∈ st.1.lruCache.keys, k ∈ S) ∧
    (∀ h : Nat, st.2.countP (fun t => t.txHash = h) ≤ 1) ∧
    ∀ t ∈ st.2, st.1.lruCache.hasKey t.txHash = true

/-- The base-token delta of a swap event as computed by `handleSwap`. -/
def swapDeltaVirtual (m : WhaleTrades) (e : SwapEvent) : Int :=
  if m.virtualIsToken0 then e.amount0In - e.amount0Out else e.amount1In - e.amount1Out

/-- The absolute base-token delta thresholded by `handleSwap`. -/
def swapAbsVirtual (m : WhaleTrades) (e : SwapEvent) : Int :=
  if swapDeltaVirtual m e < 0 then -swapDeltaVirtual m e else swapDeltaVirtual m e

/-- The trade record `handleSwap` builds when the event passes dedup and
threshold. -/
def swapTrade (m : WhaleTrades) (e : SwapEvent) : WhaleTradeInfo :=
  { direction := if 0 < swapDeltaVirtual m e then Direction.SELL else Direction.BUY
    amountVirtual := swapAbsVirtual m e
    amountToken :=
      if (if m.virtualIsToken0 then e.amount1Out - e.amount1In
          else e.amount0Out - e.amount0In) < 0 then
        -(if m.virtualIsToken0 then e.amount1Out - e.amount1In
          else e.amount0Out - e.amount0In)
      else
        if m.virtualIsToken0 then e.amount1Out - e.amount1In
        else e.amount0Out - e.amount0In
    trader := e.sender
    txHash := e.txHash
    blockNumber := e.blockNumber
    timestamp := e.now }

/-- Monitor used in the eviction scenario: threshold 1, base token = token0,
capacity 1000, cache contents `c`. -/
def c6mon (c : List (Nat × Bool)) : WhaleTrades :=
  ⟨1, true, 7, ⟨1000, c⟩⟩

/-- A qualifying swap event (base delta 5 ≥ threshold 1) with hash `h`. -/
def c6ev (h : Nat) : SwapEvent :=
  ⟨0, 5, 0, 0, 0, h, 0, 0⟩

/-- The trade `c6ev h` produces. -/
def c6tr (h : Nat) : WhaleTradeInfo :=
  ⟨Direction.SELL, 5, 0, 0, h, 0, 0⟩

/-! ### Tax tracker (src/unnamed/part_005, class `TaxTracker`)

`init`/`update` interact with the chain through the RPC pool; one `update()`
observes the environment `TaxEnv`: the result of `provider.getBlockNumber()`,
of `queryFilter(Transfer, last+1, toBlock)`, and of `balanceOf(receiver)`,
each of which can throw (`Except.error`). -/

/-- One ERC-20 `Transfer(from, to, value)` log. -/
structure TransferLog where
  fromAddr : Nat
  toAddr : Nat
  value : Nat
deriving DecidableEq

/-- `TaxResult` from src/src/types: cumulative counters of the tracker. -/
structure TaxResult where
  inflow : Nat
  outflow : Nat
  netInflow : Int
  balanceDiff : Int
  delta : Int
deriving DecidableEq

/-- Mutable state of the `TaxTracker`, plus a counter of `rotateHttp()` calls
so the error path's endpoint rotation is observable. -/
structure TaxState where
  buybackAddr : Nat
  blockStart : Nat
  lastProcessedBlock : Nat
  startBalance : Nat
  accumulated : TaxResult
  rpcRotations : Nat
deriving DecidableEq

/-- State after `init(t0)`: the `timeToBlock` estimate-and-binary-search is
abstracted to its resulting start block `bs`; `lastProcessedBlock := bs`; the
historical `balanceOf` (with its one retry and fall-back to `0`) is
abstracted to its resulting value `sb`. -/
def TaxTracker.init (buyback bs sb : Nat) : TaxState :=
  ⟨buyback, bs, bs, sb, ⟨0, 0, 0, 0, 0⟩, 0⟩

/-- Environment observed by one `update()` call. -/
structure TaxEnv where
  latestBlock : Except Unit Nat
  logs : Except Unit (List TransferLog)
  currentBalance : Except Unit Nat

/-- Body of the `for (const log of logs)` loop in `update()`: two independent
conditions, so a self-transfer contributes to both sums. -/
def plStep (buyback : Nat) (acc : Nat × Nat) (log : TransferLog) : Nat × Nat :=
  (acc.1 + (if log.toAddr = buyback then log.value else 0),
    acc.2 + (if log.fromAddr = buyback then log.value else 0))

/-- The `(inflowDelta, outflowDelta)` the log loop of `update()` computes. -/
def processLogs (buyback : Nat) (logs : List TransferLog) : Nat × Nat :=
  logs.foldl (plStep buyback) (0, 0)

/-- `TaxTracker.update()`: read the latest block (early return when no new
blocks), query the transfer logs of `(last, min(latest, last+2000)]`,
accumulate the deltas into the counters, read the current balance, recompute
`balanceDiff`/`delta`, and only then advance `lastProcessedBlock`.  Any throw
is caught, rotates the HTTP endpoint (and rebinds the token contract, not
modelled) and is re-raised.  Note that a failing `balanceOf` happens after
the counters were already mutated. -/
def TaxTracker.update (s : TaxState) (env : TaxEnv) : TaxState × Except Unit TaxResult :=
  match env.latestBlock with
  | Except.error e => ({ s with rpcRotations := s.rpcRotations + 1 }, Except.error e)
  | Except.ok latest =>
    if latest ≤ s.lastProcessedBlock then (s, Except.ok s.accumulated)
    else
      let toBlock := min latest (s.lastProcessedBlock + 2000)
      match env.logs with
      | Except.error e => ({ s with rpcRotations := s.rpcRotations + 1 }, Except.error e)
      | Except.ok logs =>
        let deltas := processLogs s.buybackAddr logs
        let acc1 : TaxResult :=
          { inflow := s.accumulated.inflow + deltas.1
            outflow := s.accumulated.outflow + deltas.2
            netInflow := ((s.accumulated.inflow + deltas.1 : Nat) : Int)
              - ((s.accumulated.outflow + deltas.2 : Nat) : Int)
            balanceDiff := s.accumulated.balanceDiff
            delta := s.accumulated.delta }
        match env.currentBalance with
        | Except.error e =>
          ({ s with accumulated := acc1, rpcRotations := s.rpcRotations + 1 },
            Except.error e)
        | Except.ok bal =>
          let acc2 : TaxResult :=
            { acc1 with
              balanceDiff := (bal : Int) - (s.startBalance : Int)
              delta := ((bal : Int) - (s.startBalance : Int)) - acc1.netInflow }
          ({ s with accumulated := acc2, lastProcessedBlock := toBlock }, Except.ok acc2)

/-- The state after one `update()`, successful or not. -/
def stepUpdate (s : TaxState) (env : TaxEnv) : TaxState :=
  (TaxTracker.update s env).1

/-- The state after a sequence of `update()` calls. -/
def runUpdates (s : TaxState) (envs : List TaxEnv) : TaxState :=
  envs.foldl stepUpdate s

/-- Scenario for C2: the tracker at start block 100 sees one inflow transfer
of 100 in `(100, 200]`, but the subsequent balance read throws. -/
def c2state : TaxState :=
  TaxTracker.init 9 100 0

/-- Environment of the failing `update()`: log query succeeds with one
transfer `to = receiver, value = 100`, `balanceOf` throws. -/
def c2envFail : TaxEnv :=
  ⟨Except.ok 200, Except.ok [⟨1, 9, 100⟩], Except.error ()⟩

/-- Environment of the retried `update()`: the chain returns the same range,
hence the same single transfer log, and everything succeeds. -/
def c2envOk : TaxEnv :=
  ⟨Except.ok 200, Except.ok [⟨1, 9, 100⟩], Except.ok 100⟩

/-! ### Buyback tracker (src/src/monitors/buyback-tracker.ts)

`Date.now()` is threaded as `now`; the stall callback `onStall` is always
registered by the state machine (state-machine.ts:299-301), so `checkStall`'s
`this.onStall` guard is modelled as satisfied. -/

/-- `SpentRecord` from src/src/types. -/
structure SpentRecord where
  time : Nat
  amount : Nat
  txHash : Nat
deriving DecidableEq

/-- Mutable state of the `BuybackTracker`. -/
structure BuybackTracker where
  taxTotal : Nat
  rateWindowMinutes : Nat
  stallAlertMinutes : Nat
  spentHistory : List SpentRecord
  spentTotal : Nat
  lastSpentTime : Nat
  stallAlerted : Bool
deriving DecidableEq

/-- State built by `new BuybackTracker(taxTotal)` with the two configured
window sizes: empty history, zero totals, no stall alerted. -/
def BuybackTracker.create (taxTotal rateWindowMinutes stallAlertMinutes : Nat) :
    BuybackTracker :=
  ⟨taxTotal, rateWindowMinutes, stallAlertMinutes, [], 0, 0, false⟩

/-- `now - rateWindowMinutes * 60 * 1000`, the sliding-window lower bound. -/
def windowStart (b : BuybackTracker) (now : Nat) : Int :=
  (now : Int) - ((b.rateWindowMinutes * 60 * 1000 : Nat) : Int)

/-- `recordSpent` from buyback-tracker.ts: push the record, add to the total,
remember the spend time, clear the stall-alerted flag, prune history older
than the sliding window. -/
def recordSpent (b : BuybackTracker) (amount txHash now : Nat) : BuybackTracker :=
  { b with
    spentHistory :=
      (b.spentHistory ++ [(⟨now, amount, txHash⟩ : SpentRecord)]).filter
        (fun h => windowStart b now ≤ (h.time : Int))
    spentTotal := b.spentTotal + amount
    lastSpentTime := now
    stallAlerted := false }

/-- `BuybackStatus` from src/src/types.  `ratePerHour`/`etaHours`/`progress`
are JavaScript numbers, idealised as `ℚ`; the float `Infinity` returned when
the rate is zero is `none`. -/
structure BuybackStatus where
  spentTotal : Nat
  spentWindow : Nat
  ratePerHour : ℚ
  remaining : Nat
  etaHours : Option ℚ
  progress : ℚ
deriving DecidableEq

/-- `getStatus` from buyback-tracker.ts: window sum, rate per hour in display
units, remaining budget, ETA (`∞` represented as `none` when the rate is not
positive), and progress percent `Number(spentTotal * 10000n / taxTotal) / 100`
(0 when the budget is zero) — with no upper cap. -/
def getStatus (b : BuybackTracker) (now : Nat) : BuybackStatus :=
  let spentWindow : Nat :=
    ((b.spentHistory.filter (fun h => windowStart b now ≤ (h.time : Int))).map
      (fun h => h.amount)).sum
  let windowSeconds : Nat := b.rateWindowMinutes * 60
  let spentWindowNum : ℚ := (spentWindow : ℚ) / 10 ^ 18
  let ratePerHour : ℚ := spentWindowNum / (windowSeconds : ℚ) * 3600
  let remaining : Nat := if b.spentTotal < b.taxTotal then b.taxTotal - b.spentTotal else 0
  let remainingNum : ℚ := (remaining : ℚ) / 10 ^ 18
  let etaHours : Option ℚ :=
    if 0 < ratePerHour then some (remainingNum / ratePerHour) else none
  let progress : ℚ :=
    if 0 < b.taxTotal then (((b.spentTotal * 10000) / b.taxTotal : Nat) : ℚ) / 100 else 0
  ⟨b.spentTotal, spentWindow, ratePerHour, remaining, etaHours, progress⟩

/-- `isStalled` from buyback-tracker.ts. -/
def isStalled (b : BuybackTracker) (now : Nat) : Bool :=
  if b.taxTotal ≤ b.spentTotal then false
  else if b.lastSpentTime = 0 then false
  else decide (((b.stallAlertMinutes * 60 * 1000 : Nat) : Int)
    < (now : Int) - (b.lastSpentTime : Int))

/-- `checkStall` from buyback-tracker.ts: fire the registered callback once,
setting the alerted flag; the `Bool` reports whether the callback fired. -/
def checkStall (b : BuybackTracker) (now : Nat) : BuybackTracker × Bool :=
  if isStalled b now && ! b.stallAlerted then ({ b with stallAlerted := true }, true)
  else (b, false)

/-- `isComplete` from buyback-tracker.ts: `spentTotal >= taxTotal`. -/
def isComplete (b : BuybackTracker) : Bool :=
  b.taxTotal ≤ b.spentTotal

/-- Lifecycle states (src/unnamed/part_006, enum `State`). -/
inductive State where
  | DISCOVER
  | WAIT_T0
  | LAUNCH_WINDOW
  | BUYBACK_PHASE
  | DONE
deriving DecidableEq

/-- The completion check at the head of `handleBuybackPhase`
(state-machine.ts:305-308): transition to `DONE` when the tracker is
complete, otherwise remain in the buyback phase (the later graduation check
and periodic publishing are independent of the budget). -/
def buybackPhaseStep (b : BuybackTracker) : State :=
  if isComplete b then State.DONE else State.BUYBACK_PHASE

/-- An event delivered to the buyback tracker: either a matching transfer
(`from == receiver`) recorded as a spend, or a `checkStall` tick. -/
inductive BuybackEvent where
  | spend (now amount txHash : Nat)
  | check (now : Nat)
deriving DecidableEq

/-- Recognise the spend events of a trace. -/
def isSpendEvent : BuybackEvent → Bool
  | BuybackEvent.spend _ _ _ => true
  | BuybackEvent.check _ => false

/-- Deliver one event, counting stall-callback firings. -/
def buybackStep (acc : BuybackTracker × Nat) (e : BuybackEvent) : BuybackTracker × Nat :=
  match e with
  | BuybackEvent.spend now amount txHash => (recordSpent acc.1 amount txHash now, acc.2)
  | BuybackEvent.check now =>
    let r := checkStall acc.1 now
    (r.1, acc.2 + (if r.2 then 1 else 0))

/-- Deliver a trace of events, counting stall-callback firings. -/
def runBuyback (b : BuybackTracker) (es : List BuybackEvent) : BuybackTracker × Nat :=
  es.foldl buybackStep (b, 0)

/-- Tracker right after the scenario's first spend (10 at t = 1000 ms). -/
def b7 : BuybackTracker :=
  recordSpent (BuybackTracker.create 100 20 5) 10 1 1000

/-- Tracker that overspent its budget: budget 100, spent 200. -/
def c4over : BuybackTracker :=
  ⟨100, 20, 5, [], 200, 0, false⟩

/-- Spec scenario 5: budget 1000·10^18, rate window 20 min, spends of
100·10^18 at t−15 min and 50·10^18 at t−5 min, with t = 3 600 000 ms. -/
def c4b5 : BuybackTracker :=
  ⟨1000 * 10 ^ 18, 20, 5,
    [⟨2700000, 100 * 10 ^ 18, 1⟩, ⟨3300000, 50 * 10 ^ 18, 2⟩],
    150 * 10 ^ 18, 3300000, false⟩

/-! ### API surface trade ring (src/src/providers/api-server.ts) -/

/-- `ApiServer.recordTrade`: unshift the trade onto the ring (newest first)
and pop the oldest entry when the ring exceeds `maxHistory = 100`.  The
broadcast is orthogonal to the ring contents and not modelled. -/
def recordTrade (ring : List WhaleTradeInfo) (t : WhaleTradeInfo) : List WhaleTradeInfo :=
  let r := t :: ring
  if 100 < r.length then r.dropLast else r

/-- A concrete whale trade with transaction hash 42. -/
def c9trade : WhaleTradeInfo :=
  ⟨Direction.BUY, 5, 0, 1, 42, 1, 0⟩

/-! ### Catalog client upcoming launches (src/unnamed/part_002,
`VirtualsApi.getUpcomingLaunches`)

The three factory lists are fetched concurrently and then processed purely;
the model takes the three fetched lists as inputs.  `parseTimestamp`
(`Date.parse`) is abstracted: `launchedAt` holds the parsed millisecond
timestamp, `none` when the field is absent or unparsable.  The JS `Map`
used for the merge preserves first-insertion order and keeps the last value
written per key. -/

/-- Catalog statuses relevant to the upcoming filter. -/
inductive AgentStatus where
  | INITIALIZED
  | UNDERGRAD
  | AVAILABLE
deriving DecidableEq

/-- The fields of a catalog agent that `getUpcomingLaunches` reads. -/
structure VirtualsAgent where
  id : Nat
  status : AgentStatus
  preTokenPair : Option String
  lpCreatedAt : Option String
  launchedAt : Option Int
deriving DecidableEq

/-- JavaScript truthiness of an optional string field (`Boolean(x)` /
`!x`): present and non-empty. -/
def truthy : Option String → Bool
  | none => false
  | some s => decide (¬ s = "")

/-- The two `.filter` predicates of `getUpcomingLaunches` combined:
status is `INITIALIZED`, `preTokenPair` truthy, `lpCreatedAt` falsy, and the
parsed launch time lies in `[now, now + 10 days]`. -/
def upcomingPred (now : Int) (a : VirtualsAgent) : Bool :=
  decide (a.status = AgentStatus.INITIALIZED) && truthy a.preTokenPair &&
    ! truthy a.lpCreatedAt &&
    match a.launchedAt with
    | none => false
    | some ts => decide (now ≤ ts) && decide (ts ≤ now + 10 * 24 * 60 * 60 * 1000)

/-- One `deduped.set(agent.id, agent)` step on the insertion-ordered map:
overwrite in place when the id is present, append otherwise. -/
def upsertById (l : List VirtualsAgent) (a : VirtualsAgent) : List VirtualsAgent :=
  if l.any (fun b => b.id = a.id) then l.map (fun b => if b.id = a.id then a else b)
  else l ++ [a]

/-- The values of the `deduped` map after inserting every merged agent. -/
def dedupById (l : List VirtualsAgent) : List VirtualsAgent :=
  l.foldl upsertById []

/-- The sort key `parseTimestamp(launchedAt) ?? 0` of the final comparator. -/
def launchKey (a : VirtualsAgent) : Int :=
  a.launchedAt.getD 0

/-- The ascending sort by launch time (`(a, b) => at - bt`). -/
def sortByLaunch (l : List VirtualsAgent) : List VirtualsAgent :=
  List.insertionSort (fun a b => launchKey a ≤ launchKey b) l

/-- `getUpcomingLaunches` on the three fetched factory lists: merge in order
vibes ++ BONDING_V4 ++ BONDING_V2 through the id-keyed map, filter, sort. -/
def getUpcomingLaunches (vibes unicorn unicornV2 : List VirtualsAgent) (now : Int) :
    List VirtualsAgent :=
  sortByLaunch ((dedupById (vibes ++ unicorn ++ unicornV2)).filter (upcomingPred now))

/-- Modelled from the spec: the claim's merge "by id keeping the first
occurrence of each id", for comparison with the source's map-based merge. -/
def dedupByIdKeepFirst (l : List VirtualsAgent) : List VirtualsAgent :=
  l.foldl (fun acc a => if acc.any (fun b => b.id = a.id) then acc else acc ++ [a]) []

/-- Modelled from the spec: `upcoming_launches()` as the claim describes it —
keep-first merge, then the same filter and sort. -/
def getUpcomingLaunchesSpec (vibes unicorn unicornV2 : List VirtualsAgent) (now : Int) :
    List VirtualsAgent :=
  sortByLaunch
    ((dedupByIdKeepFirst (vibes ++ unicorn ++ unicornV2)).filter (upcomingPred now))

/-- A pre-launch pair address. -/
def pairA : String := "0xA"

/-- Agent id 7 as reported by the vibes factory list: would pass the filter. -/
def c8agentA : VirtualsAgent :=
  ⟨7, AgentStatus.INITIALIZED, some pairA, none, some 100⟩

/-- Agent id 7 as reported by the BONDING_V2 factory list: same id, but
status `UNDERGRAD`, so it fails the filter. -/
def c8agentB : VirtualsAgent :=
  ⟨7, AgentStatus.UNDERGRAD, some pairA, none, some 100⟩

instance : IsTotal VirtualsAgent (fun a b => launchKey a ≤ launchKey b) :=
  ⟨fun a b => le_total (launchKey a) (launchKey b)⟩

instance : IsTrans VirtualsAgent (fun a b => launchKey a ≤ launchKey b) :=
  ⟨fun _ _ _ hab hbc => le_trans hab hbc⟩

/-! ### Theorems -/

theorem LRUCache.hasKey_iff {V : Type} (c : LRUCache Nat V) (k : Nat) :
    c.hasKey k = true ↔ k ∈ c.keys := by
  simp only [LRUCache.hasKey, LRUCache.keys, List.any_eq_true, List.mem_map,
    decide_eq_true_eq]

theorem swapTrade_txHash (m : WhaleTrades) (e : SwapEvent) :
    (swapTrade m e).txHash = e.txHash := rfl

/-- Characterisation of `handleSwap` on a packaged event. -/
theorem handleSwap_eq (m : WhaleTrades) (e : SwapEvent) :
    handleSwap m e.sender e.amount0In e.amount1In e.amount0Out e.amount1Out
        e.txHash e.blockNumber e.now =
      if m.lruCache.hasKey e.txHash then (m, none)
      else if swapAbsVirtual m e < m.threshold then (m, none)
      else ({ m with lruCache := m.lruCache.set e.txHash true }, some (swapTrade m e)) :=
  rfl

theorem swapStep_dup (st : WhaleTrades × List WhaleTradeInfo) (e : SwapEvent)
    (hdup : st.1.lruCache.hasKey e.txHash = true) : swapStep st e = st := by
  simp [swapStep, handleSwap_eq, hdup]

theorem swapStep_small (st : WhaleTrades × List WhaleTradeInfo) (e : SwapEvent)
    (hth : swapAbsVirtual st.1 e < st.1.threshold) : swapStep st e = st := by
  by_cases hdup : st.1.lruCache.hasKey e.txHash
  · simp [swapStep, handleSwap_eq, hdup]
  · simp [swapStep, handleSwap_eq, hdup, hth]

theorem swapStep_emit (st : WhaleTrades × List WhaleTradeInfo) (e : SwapEvent)
    (hdup : st.1.lruCache.hasKey e.txHash = false)
    (hth : ¬ swapAbsVirtual st.1 e < st.1.threshold) :
    swapStep st e =
      ({ st.1 with lruCache := st.1.lruCache.set e.txHash true },
        st.2 ++ [swapTrade st.1 e]) := by
  simp [swapStep, handleSwap_eq, hdup, hth]

theorem LRUCache.set_fresh_small {V : Type} (c : LRUCache Nat V) (k : Nat) (v : V)
    (hdup : c.hasKey k = false) (hlen : c.cache.length < c.maxSize) :
    c.set k v = { c with cache := c.cache ++ [(k, v)] } := by
  simp only [LRUCache.set]
  rw [if_neg (by simp [hdup]), if_neg (by omega)]

theorem dedupInv_step (S : Finset Nat) (hS : S.card ≤ 1000)
    (st : WhaleTrades × List WhaleTradeInfo) (e : SwapEvent) (he : e.txHash ∈ S)
    (hinv : DedupInv S st) : DedupInv S (swapStep st e) := by
  obtain ⟨hmax, hnodup, hsub, hcount, hmem⟩ := hinv
  by_cases hdup : st.1.lruCache.hasKey e.txHash
  · rw [swapStep_dup st e hdup]
    exact ⟨hmax, hnodup, hsub, hcount, hmem⟩
  · rw [Bool.not_eq_true] at hdup
    have hfresh : e.txHash ∉ st.1.lruCache.keys := by
      intro hk
      have h1 := (LRUCache.hasKey_iff _ _).mpr hk
      rw [hdup] at h1
      exact absurd h1 (by decide)
    by_cases hth : swapAbsVirtual st.1 e < st.1.threshold
    · rw [swapStep_small st e hth]
      exact ⟨hmax, hnodup, hsub, hcount, hmem⟩
    · have hlen : st.1.lruCache.cache.length < 1000 := by
        by_contra hge
        have hlenkeys : st.1.lruCache.keys.length = st.1.lruCache.cache.length := by
          simp [LRUCache.keys]
        have hcard : st.1.lruCache.keys.toFinset.card = st.1.lruCache.keys.length :=
          List.toFinset_card_of_nodup hnodup
        have hsubF : st.1.lruCache.keys.toFinset ⊆ S := by
          intro k hk
          exact hsub k (List.mem_toFinset.mp hk)
        have hSle : S.card ≤ st.1.lruCache.keys.toFinset.card := by
          have := Finset.card_le_card hsubF
          omega
        have heq : st.1.lruCache.keys.toFinset = S :=
          Finset.eq_of_subset_of_card_le hsubF hSle
        have hmemF : e.txHash ∈ st.1.lruCache.keys.toFinset := heq ▸ he
        exact hfresh (List.mem_toFinset.mp hmemF)
      rw [swapStep_emit st e hdup hth,
        LRUCache.set_fresh_small _ _ _ hdup (by omega)]
      have hcount0 : st.2.countP (fun t => t.txHash = e.txHash) = 0 := by
        rw [List.countP_eq_zero]
        intro t ht
        simp only [decide_eq_true_eq]
        intro hhash
        have h1 := hmem t ht
        rw [hhash, hdup] at h1
        exact absurd h1 (by decide)
      have hkeys : ({ st.1.lruCache with
            cache := st.1.lruCache.cache ++ [(e.txHash, true)] } : LRUCache Nat Bool).keys
          = st.1.lruCache.keys ++ [e.txHash] := by
        simp [LRUCache.keys]
      refine ⟨hmax, ?_, ?_, ?_, ?_⟩
      · show (({ st.1.lruCache with
            cache := st.1.lruCache.cache ++ [(e.txHash, true)] } : LRUCache Nat Bool).keys).Nodup
        rw [hkeys]
        refine List.Nodup.append hnodup (List.nodup_singleton _) ?_
        intro a ha hb
        rw [List.mem_singleton] at hb
        exact hfresh (hb ▸ ha)
      · show ∀ k ∈ ({ st.1.lruCache with
            cache := st.1.lruCache.cache ++ [(e.txHash, true)] } : LRUCache Nat Bool).keys, k ∈ S
        intro k hk
        rw [hkeys, List.mem_append, List.mem_singleton] at hk
        rcases hk with hk | hk
        · exact hsub k hk
        · exact hk ▸ he
      · intro h
        show (st.2 ++ [swapTrade st.1 e]).countP (fun t => t.txHash = h) ≤ 1
        rw [List.countP_append]
        by_cases hh : h = e.txHash
        · subst hh
          have hone : List.countP (fun t => decide (t.txHash = e.txHash))
              [swapTrade st.1 e] ≤ 1 := by
            rw [List.countP_cons, List.countP_nil]
            split
            · omega
            · omega
          omega
        · have hzero : List.countP (fun t => decide (t.txHash = h)) [swapTrade st.1 e] = 0 := by
            rw [List.countP_eq_zero]
            intro t ht
            rw [List.mem_singleton] at ht
            subst ht
            rw [swapTrade_txHash]
            simp only [decide_eq_true_eq]
            intro hc
            exact hh hc.symm
          have hc := hcount h
          omega
      · intro t ht
        show ({ st.1.lruCache with
            cache := st.1.lruCache.cache ++ [(e.txHash, true)] } : LRUCache Nat Bool).hasKey
          t.txHash = true
        rw [List.mem_append] at ht
        rw [LRUCache.hasKey_iff, hkeys, List.mem_append, List.mem_singleton]
        rcases ht with ht | ht
        · exact Or.inl ((LRUCache.hasKey_iff _ _).mp (hmem t ht))
        · rw [List.mem_singleton] at ht
          subst ht
          exact Or.inr (swapTrade_txHash st.1 e)

theorem dedupInv_run (S : Finset Nat) (hS : S.card ≤ 1000) :
    ∀ (es : List SwapEvent) (st : WhaleTrades × List WhaleTradeInfo),
      (∀ e ∈ es, e.txHash ∈ S) → DedupInv S st → DedupInv S (es.foldl swapStep st) := by
  intro es
  induction es with
  | nil => intro st _ hinv; exact hinv
  | cons e es ih =>
    intro st hes hinv
    rw [List.foldl_cons]
    exact ih _ (fun x hx => hes x (List.mem_cons_of_mem e hx))
      (dedupInv_step S hS st e (hes e (List.mem_cons_self e es)) hinv)

theorem LRUCache.set_fresh_full {V : Type} (c : LRUCache Nat V) (k : Nat) (v : V)
    (hdup : c.hasKey k = false) (hlen : c.maxSize ≤ c.cache.length) :
    c.set k v = { c with cache := c.cache.tail ++ [(k, v)] } := by
  simp only [LRUCache.set]
  rw [if_neg (by simp [hdup]), if_pos hlen]

theorem c6mon_hasKey_ge (n k : Nat) (hk : n ≤ k) :
    (c6mon ((List.range' 0 n).map (fun j => (j, true)))).lruCache.hasKey k = false := by
  simp only [c6mon, LRUCache.hasKey, List.any_eq_false, List.mem_map]
  rintro p ⟨j, hj, rfl⟩
  rw [List.mem_range'_1] at hj
  simp only [decide_eq_true_eq]
  omega

theorem c6mon_hasKey_pos (n : Nat) :
    (c6mon ((List.range' 1 n).map (fun j => (j, true)))).lruCache.hasKey 0 = false := by
  simp only [c6mon, LRUCache.hasKey, List.any_eq_false, List.mem_map]
  rintro p ⟨j, hj, rfl⟩
  rw [List.mem_range'_1] at hj
  simp only [decide_eq_true_eq]
  omega

theorem c6step (c : List (Nat × Bool)) (trs : List WhaleTradeInfo) (h : Nat)
    (hfresh : (c6mon c).lruCache.hasKey h = false) (hlen : c.length < 1000) :
    swapStep (c6mon c, trs) (c6ev h) = (c6mon (c ++ [(h, true)]), trs ++ [c6tr h]) := by
  have habs : swapAbsVirtual (c6mon c) (c6ev h) = 5 := rfl
  have hth : ¬ swapAbsVirtual (c6mon c) (c6ev h) < (c6mon c).threshold := by
    rw [habs]
    show ¬ (5 : Int) < 1
    decide
  rw [swapStep_emit (c6mon c, trs) (c6ev h) hfresh hth]
  show ({ c6mon c with lruCache := (c6mon c).lruCache.set h true },
      trs ++ [swapTrade (c6mon c) (c6ev h)]) = (c6mon (c ++ [(h, true)]), trs ++ [c6tr h])
  rw [LRUCache.set_fresh_small _ _ _ hfresh (by simpa [c6mon] using hlen)]
  rfl

theorem c6step_evict (c : List (Nat × Bool)) (trs : List WhaleTradeInfo) (h : Nat)
    (hfresh : (c6mon c).lruCache.hasKey h = false) (hlen : 1000 ≤ c.length) :
    swapStep (c6mon c, trs) (c6ev h) = (c6mon (c.tail ++ [(h, true)]), trs ++ [c6tr h]) := by
  have habs : swapAbsVirtual (c6mon c) (c6ev h) = 5 := rfl
  have hth : ¬ swapAbsVirtual (c6mon c) (c6ev h) < (c6mon c).threshold := by
    rw [habs]
    show ¬ (5 : Int) < 1
    decide
  rw [swapStep_emit (c6mon c, trs) (c6ev h) hfresh hth]
  show ({ c6mon c with lruCache := (c6mon c).lruCache.set h true },
      trs ++ [swapTrade (c6mon c) (c6ev h)]) = (c6mon (c.tail ++ [(h, true)]), trs ++ [c6tr h])
  rw [LRUCache.set_fresh_full _ _ _ hfresh (by simpa [c6mon] using hlen)]
  rfl

theorem c6aux (n : Nat) (hn : n ≤ 999) :
    ∀ trs : List WhaleTradeInfo,
      ((List.range' 1 n).map c6ev).foldl swapStep (c6mon [(0, true)], trs)
        = (c6mon ((List.range' 0 (n + 1)).map (fun k => (k, true))),
            trs ++ (List.range' 1 n).map c6tr) := by
  induction n with
  | zero =>
    intro trs
    simp [List.range']
  | succ n ih =>
    intro trs
    have hconcat : List.range' 1 (n + 1) = List.range' 1 n ++ [1 + n] := by
      simpa using @List.range'_concat 1 1 n
    rw [hconcat, List.map_append, List.foldl_append, ih (by omega) trs]
    have hzero : [c6ev (1 + n)].foldl swapStep
        (c6mon ((List.range' 0 (n + 1)).map (fun k => (k, true))),
          trs ++ (List.range' 1 n).map c6tr)
        = (c6mon (((List.range' 0 (n + 1)).map (fun k => (k, true))) ++ [(1 + n, true)]),
            (trs ++ (List.range' 1 n).map c6tr) ++ [c6tr (1 + n)]) := by
      rw [List.foldl_cons, List.foldl_nil]
      exact c6step _ _ _ (c6mon_hasKey_ge (n + 1) (1 + n) (by omega)) (by simp; omega)
    simp only [List.map_cons, List.map_nil] at hzero ⊢
    rw [hzero]
    have hcache : (List.range' 0 (n + 1)).map (fun k => (k, true)) ++ [(1 + n, true)]
        = (List.range' 0 (n + 1 + 1)).map (fun k => (k, true)) := by
      have hc2 : List.range' 0 (n + 1 + 1) = List.range' 0 (n + 1) ++ [n + 1] := by
        simpa using @List.range'_concat 1 0 (n + 1)
      rw [hc2, List.map_append, List.map_cons, List.map_nil, Nat.add_comm 1 n]
    rw [hcache]
    simp [List.append_assoc]

/-- C6, counterexample: with LRU capacity 1000, a stream consisting of a
qualifying trade with hash 0, then 1000 qualifying trades with fresh hashes
1…1000 (which evict hash 0 from the cache), then the hash-0 trade again,
makes the monitor emit hash 0 twice — so a hash is not emitted at most once
on every stream. -/
theorem whale_dedup_eviction_cex :
    ((runSwaps (c6mon []) (c6ev 0 :: ((List.range' 1 1000).map c6ev ++ [c6ev 0]))).2.countP
        (fun t => t.txHash = 0)) = 2 ∧ ¬ ((2 : Nat) ≤ 1) := by
  constructor
  · have hmain : runSwaps (c6mon []) (c6ev 0 :: ((List.range' 1 1000).map c6ev ++ [c6ev 0]))
        = (c6mon (((List.range' 1 1000).map (fun k => (k, true))).tail ++ [(0, true)]),
            (([c6tr 0] ++ (List.range' 1 999).map c6tr) ++ [c6tr 1000]) ++ [c6tr 0]) := by
      show (c6ev 0 :: ((List.range' 1 1000).map c6ev ++ [c6ev 0])).foldl swapStep
        (c6mon [], []) = _
      rw [List.foldl_cons]
      have hstep0 : swapStep (c6mon [], []) (c6ev 0) = (c6mon [(0, true)], [c6tr 0]) := by
        have h1 := c6step [] [] 0 (by decide) (by decide)
        simpa using h1
      rw [hstep0]
      have hsplit : List.range' 1 1000 = List.range' 1 999 ++ [1000] := by
        simpa using @List.range'_concat 1 1 999
      rw [hsplit, List.map_append, List.append_assoc, List.foldl_append]
      rw [c6aux 999 (by omega) [c6tr 0]]
      simp only [List.map_cons, List.map_nil, List.foldl_append, List.foldl_cons,
        List.foldl_nil]
      have hev : swapStep
          (c6mon ((List.range' 0 1000).map (fun k => (k, true))), [c6tr 0] ++
            (List.range' 1 999).map c6tr) (c6ev 1000)
          = (c6mon (((List.range' 0 1000).map (fun k => (k, true))).tail ++ [(1000, true)]),
              ([c6tr 0] ++ (List.range' 1 999).map c6tr) ++ [c6tr 1000]) :=
        c6step_evict _ _ _ (c6mon_hasKey_ge 1000 1000 (by omega)) (by simp)
      rw [hev]
      have htail : ((List.range' 0 1000).map (fun k => (k, true))).tail ++ [(1000, true)]
          = (List.range' 1 1000).map (fun k => (k, true)) := by
        have h0 : List.range' 0 1000 = 0 :: List.range' 1 999 := by
          simpa using List.range'_succ 0 999 1
        rw [h0, List.map_cons, List.tail_cons]
        have h1 : List.range' 1 1000 = List.range' 1 999 ++ [1000] := by
          simpa using @List.range'_concat 1 1 999
        rw [h1, List.map_append, List.map_cons, List.map_nil]
      rw [htail]
      have hfinal : swapStep
          (c6mon ((List.range' 1 1000).map (fun k => (k, true))),
            ([c6tr 0] ++ (List.range' 1 999).map c6tr) ++ [c6tr 1000]) (c6ev 0)
          = (c6mon (((List.range' 1 1000).map (fun k => (k, true))).tail ++ [(0, true)]),
              (([c6tr 0] ++ (List.range' 1 999).map c6tr) ++ [c6tr 1000]) ++ [c6tr 0]) :=
        c6step_evict _ _ _ (c6mon_hasKey_pos 1000) (by simp)
      rw [hfinal, hsplit]
    rw [hmain]
    simp only [List.countP_append, List.countP_map]
    have h1 : List.countP (fun t => t.txHash = 0) [c6tr 0] = 1 := by decide
    have h2 : List.countP ((fun t => decide (t.txHash = 0)) ∘ c6tr) (List.range' 1 999) = 0 := by
      rw [List.countP_eq_zero]
      intro k hk
      rw [List.mem_range'_1] at hk
      simp only [Function.comp_apply, c6tr, decide_eq_true_eq]
      omega
    have h3 : List.countP (fun t => t.txHash = 0) [c6tr 1000] = 0 := by decide
    omega
  · decide

/-- C6, amended: within one monitor lifetime a transaction hash is emitted at
most once on every stream that carries at most 1000 distinct transaction
hashes (the LRU capacity); in general a hash can be re-emitted once 1000
other distinct hashes have evicted it, as `whale_dedup_eviction_cex` shows. -/
theorem whale_dedup_amended (thr : Int) (vit0 : Bool) (pool : Nat)
    (es : List SwapEvent) (S : Finset Nat) (hes : ∀ e ∈ es, e.txHash ∈ S)
    (hS : S.card ≤ 1000) (h : Nat) :
    ((runSwaps ⟨thr, vit0, pool, ⟨1000, []⟩⟩ es).2.countP (fun t => t.txHash = h)) ≤ 1 := by
  have hinv : DedupInv S ((⟨thr, vit0, pool, ⟨1000, []⟩⟩ : WhaleTrades),
      ([] : List WhaleTradeInfo)) := by
    refine ⟨rfl, ?_, ?_, ?_, ?_⟩ <;> simp [LRUCache.keys]
  exact (dedupInv_run S hS es _ hes hinv).2.2.2.1 h

/-- C6, witness for the amended theorem: a two-event stream repeating hash 0
(one distinct hash ≤ 1000) emits it at most once. -/
theorem whale_dedup_amended_witness :
    ((runSwaps ⟨1, true, 7, ⟨1000, []⟩⟩ [c6ev 0, c6ev 0]).2.countP
        (fun t => t.txHash = 0)) ≤ 1 :=
  whale_dedup_amended 1 true 7 [c6ev 0, c6ev 0] {0} (by decide) (by decide) 0

/-- C1, counterexample: an AMM-v2 swap with `amount0In = 1500·10^18`,
`amount0Out = 0`, base token = token0 and threshold `1000·10^18` has a
positive base-token delta into the pool, yet the detector emits direction
`SELL`, not the `buy` the claim requires. -/
theorem whale_direction_flipped_cex :
    ((handleSwap ⟨1000 * 10 ^ 18, true, 7, ⟨1000, []⟩⟩ 1 (1500 * 10 ^ 18) 0 0 0 5 1 0).2.map
        (fun t => t.direction)) = some Direction.SELL ∧
      ¬ Direction.SELL = Direction.BUY := by
  constructor
  · rfl
  · decide

/-- C1, amended: whenever the AMM-v2 handler emits a trade, its direction is
`SELL` exactly when the base-token delta into the pool is positive (and `BUY`
otherwise), and the absolute base delta meets the threshold; whenever the
curve handler emits a trade, its direction is `BUY` exactly when the
transfer's `from` is the pool (so `to == pool` yields `SELL`), the transfer
touches the pool, and the value meets the threshold. -/
theorem whale_direction_amended :
    (∀ (m : WhaleTrades) (sender : Nat) (a0i a1i a0o a1o : Int) (tx blk now : Nat)
        (tr : WhaleTradeInfo),
        (handleSwap m sender a0i a1i a0o a1o tx blk now).2 = some tr →
        ((tr.direction = Direction.SELL ↔
            0 < (if m.virtualIsToken0 then a0i - a0o else a1i - a1o)) ∧
          m.threshold ≤ tr.amountVirtual)) ∧
      ∀ (m : WhaleTrades) (fromAddr toAddr : Nat) (v : Int) (tx blk now : Nat)
        (tr : WhaleTradeInfo),
        (handleTransfer m fromAddr toAddr v tx blk now).2 = some tr →
        ((tr.direction = Direction.BUY ↔ fromAddr = m.poolAddress) ∧
          (fromAddr = m.poolAddress ∨ toAddr = m.poolAddress) ∧
          m.threshold ≤ tr.amountVirtual) := by
  constructor
  · intro m sender a0i a1i a0o a1o tx blk now tr h
    unfold handleSwap at h
    by_cases hdup : m.lruCache.hasKey tx
    · simp [hdup] at h
    · simp only [hdup, Bool.false_eq_true, if_false] at h
      set dv : Int := if m.virtualIsToken0 then a0i - a0o else a1i - a1o with hdv
      set av : Int := if dv < 0 then -dv else dv with hav
      by_cases hth : av < m.threshold
      · simp [hth] at h
      · simp only [hth, if_false] at h
        cases h
        constructor
        · constructor
          · intro hd
            by_contra hpos
            simp only [if_neg hpos] at hd
            exact absurd hd (by decide)
          · intro hpos
            simp [hpos]
        · simpa using le_of_not_lt hth
  · intro m fromAddr toAddr v tx blk now tr h
    unfold handleTransfer at h
    by_cases hpool : ¬ fromAddr = m.poolAddress ∧ ¬ toAddr = m.poolAddress
    · simp [hpool] at h
    · simp only [hpool, if_false] at h
      by_cases hdup : m.lruCache.hasKey tx
      · simp [hdup] at h
      · simp only [hdup, Bool.false_eq_true, if_false] at h
        by_cases hth : v < m.threshold
        · simp [hth] at h
        · simp only [hth, if_false] at h
          cases h
          refine ⟨?_, ?_, le_of_not_lt hth⟩
          · by_cases hf : fromAddr = m.poolAddress
            · simp [hf]
            · simp [hf]
          · rcases Decidable.not_and_iff_or_not.mp hpool with hf | ht
            · exact Or.inl (Decidable.not_not.mp hf)
            · exact Or.inr (Decidable.not_not.mp ht)

/-- C1, witness for the amended theorem: instantiated at the concrete swap of
the counterexample and at a concrete curve transfer into the pool. -/
theorem whale_direction_amended_witness :
    ((Direction.SELL = Direction.SELL ↔ (0 : Int) < 1500 * 10 ^ 18 - 0) ∧
        (1000 * 10 ^ 18 : Int) ≤ 1500 * 10 ^ 18) ∧
      (Direction.SELL = Direction.BUY ↔ 3 = 7) ∧ (3 = 7 ∨ (7 : Nat) = 7) ∧
        (1000 * 10 ^ 18 : Int) ≤ 1500 * 10 ^ 18 := by
  constructor
  · exact whale_direction_amended.1 ⟨1000 * 10 ^ 18, true, 7, ⟨1000, []⟩⟩ 1
      (1500 * 10 ^ 18) 0 0 0 5 1 0
      { direction := Direction.SELL, amountVirtual := 1500 * 10 ^ 18, amountToken := 0,
        trader := 1, txHash := 5, blockNumber := 1, timestamp := 0 } (by rfl)
  · exact whale_direction_amended.2 ⟨1000 * 10 ^ 18, true, 7, ⟨1000, []⟩⟩ 3 7
      (1500 * 10 ^ 18) 5 1 0
      { direction := Direction.SELL, amountVirtual := 1500 * 10 ^ 18, amountToken := 0,
        trader := 3, txHash := 5, blockNumber := 1, timestamp := 0 } (by rfl)

/-- C2, code bug: when the log query succeeds but the balance read throws,
the failing `update()` has already added the range's transfers to the
cumulative counters (inflow becomes 100, not the unchanged 0 the claim
requires) while `lastProcessedBlock` stays at 100; the error is re-raised and
the endpoint rotated, and the retried `update()` re-scans `(100, 200]` and
counts the same transfer again, ending with inflow 200 instead of the sum
100 over the distinct logs. -/
theorem taxTracker_failed_update_double_counts :
    (TaxTracker.update c2state c2envFail).2 = Except.error () ∧
      (TaxTracker.update c2state c2envFail).1.accumulated.inflow = 100 ∧
      ¬ (TaxTracker.update c2state c2envFail).1.accumulated.inflow = 0 ∧
      (TaxTracker.update c2state c2envFail).1.lastProcessedBlock = 100 ∧
      (TaxTracker.update c2state c2envFail).1.rpcRotations = 1 ∧
      (TaxTracker.update (TaxTracker.update c2state c2envFail).1 c2envOk).1.accumulated.inflow
        = 200 ∧
      ¬ (200 : Nat) = 100 := by
  refine ⟨rfl, rfl, by decide, rfl, rfl, rfl, by decide⟩

theorem processLogs_fold (b : Nat) (logs : List TransferLog) :
    ∀ i o : Nat,
      logs.foldl (plStep b) (i, o)
        = (i + (logs.map (fun l => if l.toAddr = b then l.value else 0)).sum,
            o + (logs.map (fun l => if l.fromAddr = b then l.value else 0)).sum) := by
  induction logs with
  | nil => intro i o; simp
  | cons l ls ih =>
    intro i o
    rw [List.foldl_cons]
    show ls.foldl (plStep b) (i + _, o + _) = _
    rw [ih]
    simp only [List.map_cons, List.sum_cons, Prod.mk.injEq]
    omega

theorem processLogs_eq (b : Nat) (logs : List TransferLog) :
    processLogs b logs
      = ((logs.map (fun l => if l.toAddr = b then l.value else 0)).sum,
          (logs.map (fun l => if l.fromAddr = b then l.value else 0)).sum) := by
  rw [processLogs, processLogs_fold]
  simp

theorem filter_to_sum (b : Nat) (logs : List TransferLog) :
    ((logs.filter (fun l => l.toAddr = b)).map (fun l => l.value)).sum
      = (logs.map (fun l => if l.toAddr = b then l.value else 0)).sum := by
  induction logs with
  | nil => rfl
  | cons l ls ih => by_cases hp : l.toAddr = b <;> simp [hp, ih]

theorem filter_from_sum (b : Nat) (logs : List TransferLog) :
    ((logs.filter (fun l => l.fromAddr = b)).map (fun l => l.value)).sum
      = (logs.map (fun l => if l.fromAddr = b then l.value else 0)).sum := by
  induction logs with
  | nil => rfl
  | cons l ls ih => by_cases hp : l.fromAddr = b <;> simp [hp, ih]

theorem signed_sum_eq (b : Nat) (logs : List TransferLog) :
    (((logs.map (fun l => if l.toAddr = b then l.value else (0 : Nat))).sum : Nat) : Int)
        - (((logs.map (fun l => if l.fromAddr = b then l.value else (0 : Nat))).sum : Nat) : Int)
      = (logs.map (fun l =>
          (if l.toAddr = b then (l.value : Int) else 0)
            - (if l.fromAddr = b then (l.value : Int) else 0))).sum := by
  induction logs with
  | nil => simp
  | cons l ls ih =>
    simp only [List.map_cons, List.sum_cons, Nat.cast_add]
    split_ifs <;> omega

/-- C3, confirmed: over any prefix of a transfer-log sequence, the loop of a
successful `update()` sums `to == receiver` values into the inflow counter
and `from == receiver` values into the outflow counter; inflow − outflow
equals the signed sum over the prefix; a self-transfer is counted in both
sums and cancels in the difference; a successful `update()` accumulates these
sums into the cumulative counters and sets `netInflow = inflow − outflow`;
and the spec's concrete scenario (inflows 200·10^18 and 50·10^18, outflow
30·10^18, start balance 1000·10^18, current balance 1220·10^18) yields
inflow 250·10^18, outflow 30·10^18, netInflow 220·10^18, balanceDiff
220·10^18, delta 0. -/
theorem taxTracker_accounting :
    (∀ (b : Nat) (logs : List TransferLog) (n : Nat),
        (processLogs b (logs.take n)).1
            = (((logs.take n).filter (fun l => l.toAddr = b)).map (fun l => l.value)).sum ∧
          (processLogs b (logs.take n)).2
            = (((logs.take n).filter (fun l => l.fromAddr = b)).map (fun l => l.value)).sum ∧
          ((processLogs b (logs.take n)).1 : Int) - ((processLogs b (logs.take n)).2 : Int)
            = ((logs.take n).map (fun l =>
                (if l.toAddr = b then (l.value : Int) else 0)
                  - (if l.fromAddr = b then (l.value : Int) else 0))).sum) ∧
      (∀ (b : Nat) (l : TransferLog), l.toAddr = b → l.fromAddr = b →
        processLogs b [l] = (l.value, l.value) ∧
          ((processLogs b [l]).1 : Int) - ((processLogs b [l]).2 : Int) = 0) ∧
      (∀ (s : TaxState) (latest : Nat) (logs : List TransferLog) (bal : Nat),
        s.lastProcessedBlock < latest →
        (TaxTracker.update s ⟨Except.ok latest, Except.ok logs, Except.ok bal⟩).1.accumulated
          = { inflow := s.accumulated.inflow + (processLogs s.buybackAddr logs).1
              outflow := s.accumulated.outflow + (processLogs s.buybackAddr logs).2
              netInflow := ((s.accumulated.inflow + (processLogs s.buybackAddr logs).1 : Nat) : Int)
                - ((s.accumulated.outflow + (processLogs s.buybackAddr logs).2 : Nat) : Int)
              balanceDiff := (bal : Int) - (s.startBalance : Int)
              delta := ((bal : Int) - (s.startBalance : Int))
                - (((s.accumulated.inflow + (processLogs s.buybackAddr logs).1 : Nat) : Int)
                  - ((s.accumulated.outflow + (processLogs s.buybackAddr logs).2 : Nat) : Int)) }) ∧
      (TaxTracker.update (TaxTracker.init 9 100 (1000 * 10 ^ 18))
        ⟨Except.ok 200,
          Except.ok [⟨1, 9, 200 * 10 ^ 18⟩, ⟨2, 9, 50 * 10 ^ 18⟩, ⟨9, 3, 30 * 10 ^ 18⟩],
          Except.ok (1220 * 10 ^ 18)⟩).1.accumulated
        = ⟨250 * 10 ^ 18, 30 * 10 ^ 18, 220 * 10 ^ 18, 220 * 10 ^ 18, 0⟩ := by
  refine ⟨?_, ?_, ?_, by decide⟩
  · intro b logs n
    rw [processLogs_eq, filter_to_sum, filter_from_sum]
    refine ⟨rfl, rfl, ?_⟩
    dsimp only
    exact signed_sum_eq b (logs.take n)
  · intro b l hto hfrom
    constructor
    · simp [processLogs, plStep, hto, hfrom]
    · simp [processLogs, plStep, hto, hfrom]
  · intro s latest logs bal hlt
    unfold TaxTracker.update
    dsimp only
    rw [if_neg (Nat.not_le.mpr hlt)]

/-- C3, witness: the theorem instantiated at a concrete self-transfer
(`from = to = receiver 9`, value 5) and a concrete successful `update()`. -/
theorem taxTracker_accounting_witness :
    (processLogs 9 [⟨9, 9, 5⟩] = (5, 5) ∧
        ((processLogs 9 [⟨9, 9, 5⟩]).1 : Int) - ((processLogs 9 [⟨9, 9, 5⟩]).2 : Int) = 0) ∧
      (TaxTracker.update c2state c2envOk).1.accumulated
        = { inflow := c2state.accumulated.inflow + (processLogs c2state.buybackAddr [⟨1, 9, 100⟩]).1
            outflow := c2state.accumulated.outflow
              + (processLogs c2state.buybackAddr [⟨1, 9, 100⟩]).2
            netInflow := ((c2state.accumulated.inflow
                + (processLogs c2state.buybackAddr [⟨1, 9, 100⟩]).1 : Nat) : Int)
              - ((c2state.accumulated.outflow
                + (processLogs c2state.buybackAddr [⟨1, 9, 100⟩]).2 : Nat) : Int)
            balanceDiff := ((100 : Nat) : Int) - ((c2state.startBalance : Nat) : Int)
            delta := (((100 : Nat) : Int) - ((c2state.startBalance : Nat) : Int))
              - (((c2state.accumulated.inflow
                  + (processLogs c2state.buybackAddr [⟨1, 9, 100⟩]).1 : Nat) : Int)
                - ((c2state.accumulated.outflow
                  + (processLogs c2state.buybackAddr [⟨1, 9, 100⟩]).2 : Nat) : Int)) } := by
  constructor
  · exact taxTracker_accounting.2.1 9 ⟨9, 9, 5⟩ rfl rfl
  · exact taxTracker_accounting.2.2.1 c2state 200 [⟨1, 9, 100⟩] 100 (by decide)

theorem stepUpdate_mono (s : TaxState) (env : TaxEnv) :
    s.lastProcessedBlock ≤ (stepUpdate s env).lastProcessedBlock := by
  unfold stepUpdate TaxTracker.update
  cases henv : env.latestBlock with
  | error e => simp
  | ok latest =>
    by_cases hle : latest ≤ s.lastProcessedBlock
    · simp [hle]
    · cases hlogs : env.logs with
      | error e => simp [hle]
      | ok logs =>
        cases hbal : env.currentBalance with
        | error e => simp [hle]
        | ok bal =>
          simp only [hle, if_false]
          show s.lastProcessedBlock ≤ min latest (s.lastProcessedBlock + 2000)
          omega

theorem runUpdates_mono (s : TaxState) (envs : List TaxEnv) :
    s.lastProcessedBlock ≤ (runUpdates s envs).lastProcessedBlock := by
  induction envs generalizing s with
  | nil => exact Nat.le_refl _
  | cons env envs ih =>
    calc s.lastProcessedBlock ≤ (stepUpdate s env).lastProcessedBlock :=
        stepUpdate_mono s env
      _ ≤ (runUpdates (stepUpdate s env) envs).lastProcessedBlock := ih _
      _ = (runUpdates s (env :: envs)).lastProcessedBlock := rfl

/-- C5, confirmed: `lastProcessedBlock` never decreases across any sequence
of `update()` calls (successful or failing); starting from `init(T0)` it
always stays at or above the start block computed at init; and an `update()`
that observes latest block `l` with `lastProcessedBlock ≤ l` beforehand
leaves `lastProcessedBlock ≤ l` (so it never exceeds the chain's latest block
at the time of the update, the chain head being non-decreasing). -/
theorem taxTracker_lastProcessedBlock_inv :
    (∀ (s : TaxState) (envs : List TaxEnv),
        s.lastProcessedBlock ≤ (runUpdates s envs).lastProcessedBlock) ∧
      (∀ (buyback bs sb : Nat) (envs : List TaxEnv),
        bs ≤ (runUpdates (TaxTracker.init buyback bs sb) envs).lastProcessedBlock) ∧
      ∀ (s : TaxState) (env : TaxEnv) (latest : Nat),
        env.latestBlock = Except.ok latest → s.lastProcessedBlock ≤ latest →
        (stepUpdate s env).lastProcessedBlock ≤ latest := by
  refine ⟨runUpdates_mono, ?_, ?_⟩
  · intro buyback bs sb envs
    exact runUpdates_mono (TaxTracker.init buyback bs sb) envs
  · intro s env latest henv hle
    unfold stepUpdate TaxTracker.update
    rw [henv]
    by_cases hlt : latest ≤ s.lastProcessedBlock
    · simpa [hlt] using hle
    · cases hlogs : env.logs with
      | error e => simpa [hlt] using hle
      | ok logs =>
        cases hbal : env.currentBalance with
        | error e => simpa [hlt] using hle
        | ok bal =>
          simp only [hlt, if_false]
          show min latest (s.lastProcessedBlock + 2000) ≤ latest
          omega

/-- C5, witness: the invariants instantiated on the concrete tracker of the
C2 scenario — one monotone run, one start-block bound, and one
latest-block bound discharged at latest block 200. -/
theorem taxTracker_lastProcessedBlock_inv_witness :
    c2state.lastProcessedBlock ≤ (runUpdates c2state [c2envOk]).lastProcessedBlock ∧
      (100 : Nat) ≤ (runUpdates (TaxTracker.init 9 100 0) [c2envOk]).lastProcessedBlock ∧
      (stepUpdate c2state c2envOk).lastProcessedBlock ≤ 200 := by
  refine ⟨taxTracker_lastProcessedBlock_inv.1 c2state [c2envOk],
    taxTracker_lastProcessedBlock_inv.2.1 9 100 0 [c2envOk],
    taxTracker_lastProcessedBlock_inv.2.2 c2state c2envOk 200 rfl (by decide)⟩

theorem runStall_aux (es : List BuybackEvent) :
    (∀ e ∈ es, isSpendEvent e = false) →
    ∀ (b : BuybackTracker) (n : Nat),
      (es.foldl buybackStep (b, n)).2 ≤ n + (if b.stallAlerted then 0 else 1) := by
  induction es with
  | nil =>
    intro _ b n
    show n ≤ n + _
    split
    · omega
    · omega
  | cons e es ih =>
    intro hn b n
    rw [List.foldl_cons]
    cases e with
    | spend now amount txHash =>
      exact absurd (hn _ (List.mem_cons_self _ _)) (by simp [isSpendEvent])
    | check now =>
      have hrest : ∀ x ∈ es, isSpendEvent x = false :=
        fun x hx => hn x (List.mem_cons_of_mem _ hx)
      by_cases hc : (isStalled b now && ! b.stallAlerted) = true
      · have halert : b.stallAlerted = false := by
          rw [Bool.and_eq_true] at hc
          simpa using hc.2
        have hstep : buybackStep (b, n) (BuybackEvent.check now)
            = ({ b with stallAlerted := true }, n + 1) := by
          simp [buybackStep, checkStall, hc]
        rw [hstep]
        have hb : (es.foldl buybackStep ({ b with stallAlerted := true }, n + 1)).2 ≤ n + 1 := by
          simpa using ih hrest { b with stallAlerted := true } (n + 1)
        rw [halert]
        simpa using hb
      · have hstep : buybackStep (b, n) (BuybackEvent.check now) = (b, n) := by
          simp only [buybackStep, checkStall]
          rw [if_neg (by simpa using hc)]
          simp
        rw [hstep]
        exact ih hrest b n

/-- C7, confirmed: the stall callback fires only when `spentTotal < taxTotal`,
at least one spend was observed (`lastSpentTime ≠ 0`), the stall window
`now − lastSpentTime > stallAlert` has elapsed and no alert is pending; any
spend-free stretch of a run fires it at most once; and in the spec's
stall-then-recovery scenario (stall alert 5 min, spend, stall, spend,
stall) the callback fires exactly twice. -/
theorem buyback_stall_once :
    (∀ (b : BuybackTracker) (now : Nat),
        (checkStall b now).2 = true →
        b.spentTotal < b.taxTotal ∧ ¬ b.lastSpentTime = 0 ∧
          ((b.stallAlertMinutes * 60 * 1000 : Nat) : Int)
            < (now : Int) - (b.lastSpentTime : Int) ∧
          b.stallAlerted = false) ∧
      (∀ (b : BuybackTracker) (es : List BuybackEvent),
        (∀ e ∈ es, isSpendEvent e = false) → (runBuyback b es).2 ≤ 1) ∧
      (runBuyback (BuybackTracker.create 100 20 5)
          [BuybackEvent.spend 1000 10 1, BuybackEvent.check 360000,
            BuybackEvent.check 420000, BuybackEvent.spend 420000 20 2,
            BuybackEvent.check 880000]).2 = 2 := by
  refine ⟨?_, ?_, by decide⟩
  · intro b now h
    unfold checkStall at h
    split_ifs at h with hc
    rw [Bool.and_eq_true] at hc
    obtain ⟨hst, hal⟩ := hc
    have halert : b.stallAlerted = false := by simpa using hal
    unfold isStalled at hst
    split_ifs at hst with h1 h2
    exact ⟨by omega, h2, of_decide_eq_true hst, halert⟩
  · intro b es hn
    have h := runStall_aux es hn b 0
    have hb : (if b.stallAlerted then 0 else 1) ≤ 1 := by
      split
      · omega
      · omega
    show (es.foldl buybackStep (b, 0)).2 ≤ 1
    omega

/-- C7, witness: at `b7` (one spend of 10 at t = 1000) a `checkStall` at
t = 360000 fires, so its guard conditions hold there; and a spend-free trace
of two checks fires at most once. -/
theorem buyback_stall_once_witness :
    (b7.spentTotal < b7.taxTotal ∧ ¬ b7.lastSpentTime = 0 ∧
        ((b7.stallAlertMinutes * 60 * 1000 : Nat) : Int)
          < ((360000 : Nat) : Int) - (b7.lastSpentTime : Int) ∧
        b7.stallAlerted = false) ∧
      (runBuyback b7 [BuybackEvent.check 360000, BuybackEvent.check 420000]).2 ≤ 1 := by
  constructor
  · exact buyback_stall_once.1 b7 360000 (by decide)
  · exact buyback_stall_once.2.1 b7 [BuybackEvent.check 360000, BuybackEvent.check 420000]
      (by decide)

/-- C10, confirmed: with a zero buyback budget, `isComplete()` holds before
any spend is recorded, the buyback-phase handler's first completion check
transitions to `DONE`, and `getStatus()` avoids the zero division: progress
is 0 and remaining is 0. -/
theorem buyback_zero_budget_safe :
    ∀ (rwm sam now : Nat),
      isComplete (BuybackTracker.create 0 rwm sam) = true ∧
        buybackPhaseStep (BuybackTracker.create 0 rwm sam) = State.DONE ∧
        (getStatus (BuybackTracker.create 0 rwm sam) now).progress = 0 ∧
        (getStatus (BuybackTracker.create 0 rwm sam) now).remaining = 0 := by
  intro rwm sam now
  exact ⟨rfl, rfl, rfl, rfl⟩

theorem getStatus_spentWindow (b : BuybackTracker) (now : Nat) :
    (getStatus b now).spentWindow
      = ((b.spentHistory.filter (fun h => windowStart b now ≤ (h.time : Int))).map
          (fun h => h.amount)).sum := rfl

theorem getStatus_rate (b : BuybackTracker) (now : Nat) :
    (getStatus b now).ratePerHour
      = ((getStatus b now).spentWindow : ℚ) / 10 ^ 18
          / ((b.rateWindowMinutes * 60 : Nat) : ℚ) * 3600 := rfl

theorem getStatus_remaining (b : BuybackTracker) (now : Nat) :
    (getStatus b now).remaining
      = if b.spentTotal < b.taxTotal then b.taxTotal - b.spentTotal else 0 := rfl

theorem getStatus_eta (b : BuybackTracker) (now : Nat) :
    (getStatus b now).etaHours
      = if 0 < (getStatus b now).ratePerHour then
          some (((getStatus b now).remaining : ℚ) / 10 ^ 18 / (getStatus b now).ratePerHour)
        else none := rfl

theorem getStatus_progress (b : BuybackTracker) (now : Nat) :
    (getStatus b now).progress
      = if 0 < b.taxTotal then (((b.spentTotal * 10000) / b.taxTotal : Nat) : ℚ) / 100
        else 0 := rfl

theorem spent_filter_sum (p : SpentRecord → Bool) (l : List SpentRecord) :
    ((l.filter p).map (fun h => h.amount)).sum
      = (l.map (fun h => if p h then h.amount else 0)).sum := by
  induction l with
  | nil => rfl
  | cons x xs ih => by_cases hp : p x <;> simp [hp, ih]

/-- C4, counterexample: with `taxTotal = 100` and `spentTotal = 200`,
`getStatus` reports progress 200, not the `min(100, …) = 100` the claim
requires — the code has no 100-percent cap. -/
theorem buyback_progress_uncapped_cex :
    (getStatus c4over 0).progress = 200 ∧
      min (100 : ℚ) ((c4over.spentTotal : ℚ) / (c4over.taxTotal : ℚ) * 100) = 100 ∧
      ¬ ((200 : ℚ) = 100) := by
  refine ⟨?_, ?_, by norm_num⟩
  · rw [getStatus_progress]
    norm_num [c4over]
  · norm_num [c4over, min_def]

/-- C4, amended: at every `getStatus()` call the window sum, rate and
remaining are as the claim states, `etaHours = remaining / ratePerHour` when
the rate is positive and `∞` (`none`) when it is zero — in particular when
the sliding window is empty — but `progress` is the 2-decimal truncation
`Number(spentTotal · 10000 / taxTotal) / 100` (0 when the budget is zero),
with no `min(100, …)` cap; the spec's ETA scenario evaluates to rate 450,
remaining 850·10^18, ETA 17/9 h, progress 15. -/
theorem buyback_status_amended :
    (∀ (b : BuybackTracker) (now : Nat),
        (getStatus b now).spentWindow
            = (b.spentHistory.map
                (fun h => if windowStart b now ≤ (h.time : Int) then h.amount else 0)).sum ∧
          (getStatus b now).ratePerHour
            = ((getStatus b now).spentWindow : ℚ) / 10 ^ 18
                / ((b.rateWindowMinutes * 60 : Nat) : ℚ) * 3600 ∧
          ((getStatus b now).remaining : Int)
            = max 0 ((b.taxTotal : Int) - (b.spentTotal : Int)) ∧
          (0 < (getStatus b now).ratePerHour →
            (getStatus b now).etaHours
              = some (((getStatus b now).remaining : ℚ) / 10 ^ 18
                  / (getStatus b now).ratePerHour)) ∧
          ((getStatus b now).ratePerHour = 0 → (getStatus b now).etaHours = none) ∧
          (b.spentHistory.filter (fun h => windowStart b now ≤ (h.time : Int)) = [] →
            (getStatus b now).ratePerHour = 0 ∧ (getStatus b now).etaHours = none) ∧
          (0 < b.taxTotal →
            (getStatus b now).progress
              = (((b.spentTotal * 10000) / b.taxTotal : Nat) : ℚ) / 100) ∧
          (b.taxTotal = 0 → (getStatus b now).progress = 0)) ∧
      getStatus c4b5 3600000
        = ⟨150 * 10 ^ 18, 150 * 10 ^ 18, 450, 850 * 10 ^ 18, some (17 / 9), 15⟩ := by
  constructor
  · intro b now
    refine ⟨?_, getStatus_rate b now, ?_, ?_, ?_, ?_, ?_, ?_⟩
    · rw [getStatus_spentWindow, spent_filter_sum]
      simp only [decide_eq_true_eq]
    · rw [getStatus_remaining]
      split_ifs with h
      · omega
      · omega
    · intro h
      rw [getStatus_eta, if_pos h]
    · intro h
      rw [getStatus_eta, if_neg (by rw [h]; exact lt_irrefl 0)]
    · intro h
      have hr : (getStatus b now).ratePerHour = 0 := by
        rw [getStatus_rate, getStatus_spentWindow, h]
        norm_num
      exact ⟨hr, by rw [getStatus_eta, hr, if_neg (lt_irrefl 0)]⟩
    · intro h
      rw [getStatus_progress, if_pos h]
    · intro h
      rw [getStatus_progress, if_neg (by omega)]
  · have hstt : (getStatus c4b5 3600000).spentTotal = 150 * 10 ^ 18 := rfl
    have hsw : (getStatus c4b5 3600000).spentWindow = 150 * 10 ^ 18 := by decide
    have hrem : (getStatus c4b5 3600000).remaining = 850 * 10 ^ 18 := by decide
    have hrate : (getStatus c4b5 3600000).ratePerHour = 450 := by
      rw [getStatus_rate, hsw]
      norm_num [c4b5]
    have heta : (getStatus c4b5 3600000).etaHours = some (17 / 9) := by
      rw [getStatus_eta, hrate, hrem]
      norm_num
    have hprog : (getStatus c4b5 3600000).progress = 15 := by
      rw [getStatus_progress]
      norm_num [c4b5]
    calc getStatus c4b5 3600000
        = ⟨(getStatus c4b5 3600000).spentTotal, (getStatus c4b5 3600000).spentWindow,
            (getStatus c4b5 3600000).ratePerHour, (getStatus c4b5 3600000).remaining,
            (getStatus c4b5 3600000).etaHours, (getStatus c4b5 3600000).progress⟩ := rfl
      _ = ⟨150 * 10 ^ 18, 150 * 10 ^ 18, 450, 850 * 10 ^ 18, some (17 / 9), 15⟩ := by
          rw [hstt, hsw, hrate, hrem, heta, hprog]

/-- C4, witness for the amended theorem: at the ETA scenario the positive
rate yields `etaHours = remaining / ratePerHour`, and the positive budget
yields the truncated progress formula. -/
theorem buyback_status_amended_witness :
    (getStatus c4b5 3600000).etaHours
        = some (((getStatus c4b5 3600000).remaining : ℚ) / 10 ^ 18
            / (getStatus c4b5 3600000).ratePerHour) ∧
      (getStatus c4b5 3600000).progress
        = (((c4b5.spentTotal * 10000) / c4b5.taxTotal : Nat) : ℚ) / 100 := by
  have hsw : (getStatus c4b5 3600000).spentWindow = 150 * 10 ^ 18 := by decide
  have hrate : 0 < (getStatus c4b5 3600000).ratePerHour := by
    rw [getStatus_rate, hsw]
    norm_num [c4b5]
  constructor
  · exact (buyback_status_amended.1 c4b5 3600000).2.2.2.1 hrate
  · exact (buyback_status_amended.1 c4b5 3600000).2.2.2.2.2.2.1 (by decide)

/-- C9, counterexample: recording the same trade (same transaction hash)
twice from an empty ring leaves two entries with that hash in the ring —
`recordTrade` performs no per-hash dedup, so it is not idempotent per
transaction hash. -/
theorem recordTrade_no_dedup_cex :
    recordTrade (recordTrade [] c9trade) c9trade = [c9trade, c9trade] ∧
      ((recordTrade (recordTrade [] c9trade) c9trade).countP
          (fun t => t.txHash = c9trade.txHash)) = 2 ∧
      ¬ ((2 : Nat) = 1) := by
  refine ⟨rfl, by decide, by decide⟩

/-- C9, amended: `recordTrade` unconditionally prepends each call's trade to
the ring (dropping the oldest entry beyond 100), so two calls with the same
transaction hash enqueue two entries; per-hash at-most-once enqueueing is
provided upstream by the whale detector's LRU dedup, not by `recordTrade`. -/
theorem recordTrade_amended :
    (∀ (ring : List WhaleTradeInfo) (t : WhaleTradeInfo),
        (recordTrade ring t).head? = some t) ∧
      (∀ (ring : List WhaleTradeInfo) (t : WhaleTradeInfo),
        (recordTrade ring t).length
          = if 100 < ring.length + 1 then ring.length else ring.length + 1) ∧
      ∀ t : WhaleTradeInfo, recordTrade (recordTrade [] t) t = [t, t] := by
  refine ⟨?_, ?_, fun t => rfl⟩
  · intro ring t
    show (if 100 < (t :: ring).length then (t :: ring).dropLast else t :: ring).head?
      = some t
    split_ifs with h
    · cases ring with
      | nil => simp at h
      | cons a l => rfl
    · rfl
  · intro ring t
    show (if 100 < (t :: ring).length then (t :: ring).dropLast else t :: ring).length = _
    simp only [List.length_cons]
    split_ifs with h
    · simp [List.length_dropLast]
    · rfl

/-- C8, counterexample: when the same id occurs in two factory lists, the
code's `Map.set` keeps the **last** occurrence, not the first: with the
passing version first and the failing version last, the code returns `[]`
while the claim's keep-first merge returns the first version. -/
theorem upcoming_keep_first_cex :
    getUpcomingLaunches [c8agentA] [] [c8agentB] 0 = [] ∧
      getUpcomingLaunchesSpec [c8agentA] [] [c8agentB] 0 = [c8agentA] ∧
      ¬ (([] : List VirtualsAgent) = [c8agentA]) := by
  refine ⟨by decide, by decide, by decide⟩

theorem mem_upsertById (d : List VirtualsAgent) (a x : VirtualsAgent) :
    x ∈ upsertById d a ↔ (x = a ∨ (x ∈ d ∧ ¬ x.id = a.id)) := by
  unfold upsertById
  split_ifs with h
  · constructor
    · intro hx
      rcases List.mem_map.mp hx with ⟨b, hb, hfb⟩
      by_cases hid : b.id = a.id
      · left
        rw [if_pos hid] at hfb
        exact hfb.symm
      · right
        rw [if_neg hid] at hfb
        exact hfb ▸ ⟨hb, hid⟩
    · rintro (rfl | ⟨hx, hneq⟩)
      · rcases List.any_eq_true.mp h with ⟨b, hb, hid⟩
        rw [decide_eq_true_eq] at hid
        exact List.mem_map.mpr ⟨b, hb, by rw [if_pos hid]⟩
      · exact List.mem_map.mpr ⟨x, hx, by rw [if_neg hneq]⟩
  · rw [List.mem_append, List.mem_singleton]
    have hall : ∀ b ∈ d, ¬ b.id = a.id := by
      intro b hb hid
      exact h (List.any_eq_true.mpr ⟨b, hb, decide_eq_true hid⟩)
    constructor
    · rintro (hx | rfl)
      · exact Or.inr ⟨hx, hall x hx⟩
      · exact Or.inl rfl
    · rintro (rfl | ⟨hx, _⟩)
      · exact Or.inr rfl
      · exact Or.inl hx

theorem mem_dedupById (l : List VirtualsAgent) (x : VirtualsAgent) :
    x ∈ dedupById l ↔ l.reverse.find? (fun b => b.id = x.id) = some x := by
  induction l using List.reverseRecOn with
  | nil => simp [dedupById]
  | append_singleton l a ih =>
    have hstep : dedupById (l ++ [a]) = upsertById (dedupById l) a := by
      unfold dedupById
      rw [List.foldl_append]
      rfl
    rw [hstep, List.reverse_append, mem_upsertById]
    simp only [List.reverse_cons, List.reverse_nil, List.nil_append, List.singleton_append]
    by_cases hid : a.id = x.id
    · have hfind : List.find? (fun b => decide (b.id = x.id)) (a :: l.reverse)
          = some a := by
        simp [List.find?_cons, hid]
      rw [hfind]
      constructor
      · rintro (rfl | ⟨_, hneq⟩)
        · rfl
        · exact absurd hid.symm hneq
      · intro h
        injection h with h
        exact Or.inl h.symm
    · have hfind : List.find? (fun b => decide (b.id = x.id)) (a :: l.reverse)
          = List.find? (fun b => decide (b.id = x.id)) l.reverse := by
        simp [List.find?_cons, hid]
      rw [hfind]
      constructor
      · rintro (rfl | ⟨hx, _⟩)
        · exact absurd rfl hid
        · exact ih.mp hx
      · intro h
        right
        refine ⟨ih.mpr h, ?_⟩
        intro hxa
        exact hid hxa.symm

/-- C8, amended: `upcoming_launches()` returns the agents of the three
factory lists merged by id keeping, for each id, the **last** occurrence in
the order vibes ++ BONDING_V4 ++ BONDING_V2 (the `Map.set` overwrite),
filtered to status `INITIALIZED` with a truthy `preTokenPair`, no
`lpCreatedAt`, and a launch time within `[now, now + 10 days]`, sorted
ascending by launch time: the result is sorted by the launch key, and an
agent belongs to it exactly when it passes the filter and is the last
occurrence of its id in the merged list. -/
theorem upcoming_launches_amended :
    ∀ (vibes unicorn unicornV2 : List VirtualsAgent) (now : Int),
      List.Sorted (fun a b => launchKey a ≤ launchKey b)
          (getUpcomingLaunches vibes unicorn unicornV2 now) ∧
        ∀ x : VirtualsAgent,
          x ∈ getUpcomingLaunches vibes unicorn unicornV2 now ↔
            (upcomingPred now x = true ∧
              (vibes ++ unicorn ++ unicornV2).reverse.find? (fun b => b.id = x.id)
                = some x) := by
  intro vibes unicorn unicornV2 now
  constructor
  · exact List.sorted_insertionSort _ _
  · intro x
    rw [getUpcomingLaunches, sortByLaunch,
      (List.perm_insertionSort (fun a b => launchKey a ≤ launchKey b) _).mem_iff,
      List.mem_filter, mem_dedupById]
    exact and_comm

end VLM
